import Mathlib

/-!
Verification of the core of `cbfind.py`, a script that indexes a
bibliography and answers field-scoped queries against it.

The Python source is shallowly embedded below: pure functions become Lean
functions on `String` / `List Char`, the mutable dictionaries of
`create_index` become explicit association lists threaded through the
two passes, and the fallible parts (the `KeyError` raised while building
the preprint-note mapping) become `Except`.  The external collaborators
(the whoosh index/search engine and the pybtex serializer) are modelled
from the specification's contract for them; every such definition says so
in its doc comment.
-/

namespace Cbfind

/-! ### Acronym deriver: `acronyms_from_ID`, src/cbfind.py lines 130-149 -/

/-- The regex character class `[abcdefgh]` of the year-suffix pattern. -/
def isDisambig (c : Char) : Bool :=
  c = 'a' || c = 'b' || c = 'c' || c = 'd' || c = 'e' || c = 'f' || c = 'g' || c = 'h'

/-- Matcher for the regex fragment `\d*[abcdefgh]?` (anchored at the end). -/
def tailPat : List Char → Bool
  | [] => true
  | [c] => c.isDigit || isDisambig c
  | c :: t => c.isDigit && tailPat t

/-- Matcher for the anchored regex `\d+[abcdefgh]?$` against a whole suffix. -/
def isYearPat : List Char → Bool
  | [] => false
  | c :: t => c.isDigit && tailPat t

/-- `re.search(r'\d+[abcdefgh]?$', id)`: the leftmost start position whose
suffix matches the anchored pattern, i.e. the longest matching suffix. -/
def reSearchYearEnd : List Char → Option (List Char)
  | [] => none
  | c :: t => if isYearPat (c :: t) then some (c :: t) else reSearchYearEnd t

/-- Python's `str.split(sep)` for a one-character separator. -/
def pySplit : List Char → List (List Char)
  | [] => [[]]
  | c :: t =>
    if c = ':' then [] :: pySplit t
    else
      match pySplit t with
      | [] => [[c]]
      | h :: r => (c :: h) :: r

/-- `id.split(':')[-1]` from line 135 of the source. -/
def afterLastColon (l : List Char) : List Char :=
  (pySplit l).getLastD []

/-- `acronyms_from_ID` (src/cbfind.py lines 130-149): derive search tokens
from a citation key. -/
def acronyms_from_ID (key : String) : List String :=
  let id := afterLastColon key.data
  match reSearchYearEnd id with
  | none => []
  | some year =>
    let initials := id.filter Char.isUpper
    if initials.length > 2 then [⟨initials⟩, ⟨initials ++ year⟩]
    else if initials.length = 2 then [⟨initials ++ year⟩]
    else [⟨id⟩]

/-! #### Spec-side formulation of the acronym deriver (spec section 4.2).
The spec describes step 1 as discarding the prefix up to and including the
last colon (formalised here as the longest colon-free suffix) and step 2 as
locating a trailing run of digits optionally followed by one lower-case
disambiguation letter (formalised by scanning from the end of the string). -/

/-- True of characters that are not the colon separator. -/
def notColon (c : Char) : Bool := c != ':'

/-- Spec step 1: the longest suffix of the key containing no colon. -/
def specAfterColon (l : List Char) : List Char :=
  (l.reverse.takeWhile notColon).reverse

/-- Spec step 2: the trailing run of digits optionally followed by one
lower-case disambiguation letter, found by scanning from the end. -/
def specYearSuffix (l : List Char) : Option (List Char) :=
  match l.reverse with
  | [] => none
  | c :: rest =>
    if c.isDigit then some (((c :: rest).takeWhile Char.isDigit).reverse)
    else if isDisambig c then
      let ds := rest.takeWhile Char.isDigit
      if ds.isEmpty then none else some (ds.reverse ++ [c])
    else none

/-- The acronym deriver as the spec words it (steps 1-4 of section 4.2). -/
def acronymsSpec (key : String) : List String :=
  let id := specAfterColon key.data
  match specYearSuffix id with
  | none => []
  | some year =>
    let initials := id.filter Char.isUpper
    if initials.length > 2 then [⟨initials⟩, ⟨initials ++ year⟩]
    else if initials.length = 2 then [⟨initials ++ year⟩]
    else [⟨id⟩]

/-! #### Helper lemmas about `takeWhile` on a list extended by one element -/

theorem takeWhile_concat_not {p : Char → Bool} {c : Char} (h : p c = false) :
    ∀ xs : List Char, (xs ++ [c]).takeWhile p = xs.takeWhile p
  | [] => by simp [List.takeWhile_cons, h]
  | x :: xs => by
    by_cases hx : p x = true
    · simp [List.takeWhile_cons, hx, takeWhile_concat_not h xs]
    · simp only [Bool.not_eq_true] at hx
      simp [List.takeWhile_cons, hx]

theorem takeWhile_concat_stop {p : Char → Bool} {c : Char} :
    ∀ xs : List Char, xs.all p = false → (xs ++ [c]).takeWhile p = xs.takeWhile p
  | [], h => by simp at h
  | x :: xs, h => by
    by_cases hx : p x = true
    · simp only [List.all_cons, hx, Bool.true_and] at h
      simp [List.takeWhile_cons, hx, takeWhile_concat_stop xs h]
    · simp only [Bool.not_eq_true] at hx
      simp [List.takeWhile_cons, hx]

theorem takeWhile_all {p : Char → Bool} {l : List Char} (h : l.all p = true) :
    l.takeWhile p = l := by
  rw [List.takeWhile_eq_self_iff]
  exact fun x hx => by
    have := List.all_eq_true.mp h x hx
    exact this

/-! #### Facts about the year-suffix pattern -/

theorem disambig_not_digit {c : Char} (h : isDisambig c = true) : c.isDigit = false := by
  simp only [isDisambig, Bool.or_eq_true, decide_eq_true_eq] at h
  rcases h with ((((((h | h) | h) | h) | h) | h) | h) | h <;> subst h <;> decide

theorem tailPat_all_digits : ∀ l : List Char, l.all Char.isDigit = true → tailPat l = true
  | [], _ => rfl
  | [c], h => by
    simp only [List.all_cons, List.all_nil, Bool.and_true] at h
    simp [tailPat, h]
  | a :: b :: t, h => by
    simp only [List.all_cons, Bool.and_eq_true] at h
    simp only [tailPat, h.1, Bool.true_and]
    exact tailPat_all_digits (b :: t) (by simp [List.all_cons, h.2.1, h.2.2])

theorem tailPat_concat_disambig {d : Char} (hd : isDisambig d = true) :
    ∀ t : List Char, t.all Char.isDigit = true → tailPat (t ++ [d]) = true
  | [], _ => by simp [tailPat, hd]
  | [c], h => by
    simp only [List.all_cons, List.all_nil, Bool.and_true] at h
    simp [tailPat, h, hd]
  | a :: b :: t, h => by
    simp only [List.all_cons, Bool.and_eq_true] at h
    have ih := tailPat_concat_disambig hd (b :: t) (by simp [List.all_cons, h.2.1, h.2.2])
    simp only [List.cons_append, tailPat, h.1, Bool.true_and]
    exact ih

theorem tailPat_cases : ∀ t : List Char, tailPat t = true →
    t.all Char.isDigit = true ∨
      ∃ t' d, t = t' ++ [d] ∧ t'.all Char.isDigit = true ∧ isDisambig d = true
  | [], _ => Or.inl rfl
  | [c], h => by
    simp only [tailPat, Bool.or_eq_true] at h
    rcases h with h | h
    · exact Or.inl (by simp [h])
    · exact Or.inr ⟨[], c, by simp, by simp, h⟩
  | a :: b :: t, h => by
    simp only [tailPat, Bool.and_eq_true] at h
    rcases tailPat_cases (b :: t) h.2 with hall | ⟨t', d, heq, hall, hd⟩
    · exact Or.inl (by simp only [List.all_cons, Bool.and_eq_true] at hall ⊢; exact ⟨h.1, hall⟩)
    · refine Or.inr ⟨a :: t', d, by rw [List.cons_append, ← heq], ?_, hd⟩
      simp only [List.all_cons, Bool.and_eq_true]
      exact ⟨h.1, hall⟩

theorem specYearSuffix_all_digits {l : List Char} (hne : l ≠ [])
    (h : l.all Char.isDigit = true) : specYearSuffix l = some l := by
  rcases hr : l.reverse with _ | ⟨c, r⟩
  · exact absurd (by simpa using congrArg List.reverse hr) hne
  · have hall : (c :: r).all Char.isDigit = true := by
      rw [← hr, List.all_reverse]; exact h
    have hc : c.isDigit = true := by
      simp only [List.all_cons, Bool.and_eq_true] at hall; exact hall.1
    simp only [specYearSuffix, hr, hc, if_true]
    rw [takeWhile_all hall, ← hr, List.reverse_reverse]

theorem specYearSuffix_of_isYearPat :
    ∀ l : List Char, isYearPat l = true → specYearSuffix l = some l := by
  intro l h
  rcases l with _ | ⟨c, t⟩
  · simp [isYearPat] at h
  · simp only [isYearPat, Bool.and_eq_true] at h
    rcases tailPat_cases t h.2 with hall | ⟨t', d, heq, hall, hd⟩
    · exact specYearSuffix_all_digits (by simp) (by simp [List.all_cons, h.1, hall])
    · subst heq
      have hrev : (c :: (t' ++ [d])).reverse = d :: (t'.reverse ++ [c]) := by
        simp [List.reverse_cons, List.reverse_append]
      have hrall : (t'.reverse ++ [c]).all Char.isDigit = true := by
        simp only [List.all_append, List.all_reverse, Bool.and_eq_true]
        exact ⟨hall, by simp [h.1]⟩
      have hdd : d.isDigit = false := disambig_not_digit hd
      simp only [specYearSuffix, hrev, hdd, hd, if_false, if_true]
      rw [takeWhile_all hrall]
      simp [List.reverse_append]

theorem specYearSuffix_cons_of_not {c : Char} {t : List Char}
    (h : isYearPat (c :: t) = false) :
    specYearSuffix (c :: t) = specYearSuffix t := by
  rcases List.eq_nil_or_concat t with ht | ⟨t', L, ht⟩
  · subst ht
    simp only [isYearPat, tailPat, Bool.and_true] at h
    have : specYearSuffix [c] = none := by
      simp only [specYearSuffix, List.reverse_cons, List.reverse_nil, List.nil_append, h,
        if_false]
      by_cases hd : isDisambig c = true
      · simp [hd, List.takeWhile_nil, List.isEmpty_nil]
      · simp only [Bool.not_eq_true] at hd
        simp [hd]
    rw [this]; rfl
  · subst ht
    simp only [List.concat_eq_append] at h ⊢
    have hrev1 : (c :: (t' ++ [L])).reverse = L :: (t'.reverse ++ [c]) := by
      simp [List.reverse_cons, List.reverse_append]
    have hrev2 : (t' ++ [L]).reverse = L :: t'.reverse := by
      simp [List.reverse_append]
    by_cases hL : L.isDigit = true
    · have htw : (t'.reverse ++ [c]).takeWhile Char.isDigit =
          t'.reverse.takeWhile Char.isDigit := by
        by_cases hc : c.isDigit = true
        · rcases Bool.eq_false_or_eq_true (t'.reverse.all Char.isDigit) with hall | hall
          swap
          · exact takeWhile_concat_stop _ hall
          · exfalso
            have hall' : t'.all Char.isDigit = true := by rwa [List.all_reverse] at hall
            have : isYearPat (c :: (t' ++ [L])) = true := by
              simp only [isYearPat, hc, Bool.true_and]
              exact tailPat_all_digits _ (by simp [List.all_append, hall', hL])
            rw [this] at h
            simp at h
        · simp only [Bool.not_eq_true] at hc
          exact takeWhile_concat_not hc _
      simp only [specYearSuffix, hrev1, hrev2]
      simp [List.takeWhile_cons, hL, htw]
    · simp only [Bool.not_eq_true] at hL
      by_cases hD : isDisambig L = true
      · have htw : (t'.reverse ++ [c]).takeWhile Char.isDigit =
            t'.reverse.takeWhile Char.isDigit := by
          by_cases hc : c.isDigit = true
          · rcases Bool.eq_false_or_eq_true (t'.reverse.all Char.isDigit) with hall | hall
            swap
            · exact takeWhile_concat_stop _ hall
            · exfalso
              have hall' : t'.all Char.isDigit = true := by rwa [List.all_reverse] at hall
              have : isYearPat (c :: (t' ++ [L])) = true := by
                simp only [isYearPat, hc, Bool.true_and]
                exact tailPat_concat_disambig hD _ hall'
              rw [this] at h
              simp at h
          · simp only [Bool.not_eq_true] at hc
            exact takeWhile_concat_not hc _
        simp only [specYearSuffix, hrev1, hrev2, hL, hD, htw]
        simp
      · simp only [Bool.not_eq_true] at hD
        simp only [specYearSuffix, hrev1, hrev2, hL, hD]
        simp

theorem reSearch_eq_specYear : ∀ l : List Char, reSearchYearEnd l = specYearSuffix l
  | [] => rfl
  | c :: t => by
    by_cases h : isYearPat (c :: t) = true
    · rw [reSearchYearEnd, if_pos h, specYearSuffix_of_isYearPat _ h]
    · simp only [Bool.not_eq_true] at h
      rw [reSearchYearEnd, if_neg (by simp [h]), reSearch_eq_specYear t,
        specYearSuffix_cons_of_not h]

/-! #### The colon-discarding step -/

theorem pySplit_ne_nil : ∀ l : List Char, pySplit l ≠ []
  | [] => by simp [pySplit]
  | c :: t => by
    by_cases hc : c = ':'
    · simp [pySplit, hc]
    · simp only [pySplit, if_neg hc]
      rcases hp : pySplit t with _ | ⟨hd, r⟩
      · simp
      · simp

theorem pySplit_no_colon : ∀ l : List Char, (∀ x ∈ l, x ≠ ':') → pySplit l = [l]
  | [], _ => rfl
  | c :: t, h => by
    have hc : ¬(c = ':') := h c (by simp)
    have ht := pySplit_no_colon t (fun x hx => h x (by simp [hx]))
    simp [pySplit, hc, ht]

theorem pySplit_with_colon : ∀ l : List Char, ':' ∈ l →
    ∃ hd r, pySplit l = hd :: r ∧ r ≠ []
  | c :: t, hm => by
    by_cases hc : c = ':'
    · refine ⟨[], pySplit t, by simp [pySplit, hc], pySplit_ne_nil t⟩
    · have hmt : ':' ∈ t := by
        rcases List.mem_cons.mp hm with he | ht
        · exact absurd he.symm hc
        · exact ht
      obtain ⟨hd, r, hp, hr⟩ := pySplit_with_colon t hmt
      exact ⟨c :: hd, r, by simp [pySplit, hc, hp], hr⟩

theorem getLastD_irrel {α : Type} : ∀ (l : List α) (d d' : α), l ≠ [] →
    l.getLastD d = l.getLastD d'
  | [], _, _, h => absurd rfl h
  | a :: l, d, d', _ => by rw [List.getLastD_cons, List.getLastD_cons]

theorem afterLastColon_eq_spec : ∀ l : List Char, afterLastColon l = specAfterColon l
  | [] => rfl
  | c :: t => by
    by_cases hc : c = ':'
    · have lhs : afterLastColon (c :: t) = afterLastColon t := by
        simp only [afterLastColon, pySplit, if_pos hc, List.getLastD_cons]
      have rhs : specAfterColon (c :: t) = specAfterColon t := by
        simp only [specAfterColon, List.reverse_cons]
        rw [takeWhile_concat_not (by simp [notColon, hc]) t.reverse]
      rw [lhs, rhs, afterLastColon_eq_spec t]
    · by_cases hm : ':' ∈ t
      · obtain ⟨hd, r, hp, hr⟩ := pySplit_with_colon t hm
        have lhs : afterLastColon (c :: t) = afterLastColon t := by
          simp only [afterLastColon, pySplit, if_neg hc, hp, List.getLastD_cons]
          exact (getLastD_irrel r (c :: hd) hd hr).trans rfl
        have hall : t.reverse.all notColon = false := by
          by_contra hcon
          have htr : t.reverse.all notColon = true := by
            rcases Bool.eq_false_or_eq_true (t.reverse.all notColon) with h1 | h1
            · exact h1
            · exact absurd h1 hcon
          have h2 := List.all_eq_true.mp htr ':' (by simp [hm])
          simp [notColon] at h2
        have rhs : specAfterColon (c :: t) = specAfterColon t := by
          simp only [specAfterColon, List.reverse_cons]
          rw [takeWhile_concat_stop t.reverse hall]
        rw [lhs, rhs, afterLastColon_eq_spec t]
      · have hnc : ∀ x ∈ t, x ≠ ':' := fun x hx he => hm (he ▸ hx)
        have lhs : afterLastColon (c :: t) = c :: t := by
          simp only [afterLastColon, pySplit, if_neg hc, pySplit_no_colon t hnc]
          rfl
        have hall : ((c :: t).reverse).all notColon = true := by
          rw [List.all_reverse]
          refine List.all_eq_true.mpr fun x hx => ?_
          rcases List.mem_cons.mp hx with he | ht
          · simp [notColon, he, hc]
          · simp [notColon, hnc x ht]
        have rhs : specAfterColon (c :: t) = c :: t := by
          simp only [specAfterColon]
          rw [takeWhile_all hall, List.reverse_reverse]
        rw [lhs, rhs]

theorem acronyms_eq_spec (key : String) : acronyms_from_ID key = acronymsSpec key := by
  simp only [acronyms_from_ID, acronymsSpec]
  rw [afterLastColon_eq_spec, reSearch_eq_specYear]

/-- Claim C1: the acronym deriver discards everything up to and including the
last colon; if the remainder has no trailing run of digits optionally followed
by one lower-case letter a-h it returns the empty sequence; otherwise, with
the upper-case letters of the remainder as initials, it returns both the bare
initials and initials plus year suffix when there are more than 2 initials,
only initials plus year suffix when exactly 2, and the whole post-colon
remainder when fewer than 2; together with the three concrete examples. -/
theorem C1_acronym_deriver :
    (∀ key : String, acronyms_from_ID key = acronymsSpec key) ∧
    acronyms_from_ID "C:GenHalSma12" = ["GHS", "GHS12"] ∧
    acronyms_from_ID "C:Groth16" = ["Groth16"] ∧
    acronyms_from_ID "NoDigitsHere" = [] :=
  ⟨acronyms_eq_spec, by decide, by decide, by decide⟩

/-! ### Data model: raw entries and formatted documents -/

/-- A structured author name as supplied by the external bibliography parser
(pybtex `Person`): first, middle, prelast and last name parts. -/
structure AuthorName where
  firstNames : List String
  middleNames : List String
  prelastNames : List String
  lastNames : List String
  deriving DecidableEq, Repr

/-- A raw parsed bibliographic record (spec section 3 RawEntry): citation key,
ordered author list, and the field-name-to-raw-text mapping. -/
structure RawEntry where
  key : String
  authors : List AuthorName
  fields : List (String × String)
  deriving DecidableEq, Repr

/-- A formatted entry as built by `create_index` (the Python dict
`formatted_entry`, src/cbfind.py lines 94-110, plus the `ignore` mark of
line 124).  `ID`, `bibtex`, `author` and `acronyms` are always assigned by
the code; `title`, `year` and `note` only when present in the raw fields. -/
structure FormattedEntry where
  ID : String
  bibtex : String
  author : String
  title : Option String
  year : Option String
  note : Option String
  acronyms : String
  ignore : Bool
  deriving DecidableEq, Repr

/-! ### Entry normalisation (src/cbfind.py lines 94-110) -/

/-- The `str.translate` call of line 107: replace each newline by a space and
delete every literal brace, in one pass over the characters. -/
def pyTranslate (s : String) : String :=
  ⟨s.data.foldr
    (fun c acc =>
      if c = '\n' then ' ' :: acc
      else if c = '{' || c = '}' then acc
      else c :: acc) []⟩

/-- The `.lstrip('\\url')` call of line 108: Python's `lstrip` takes a set of
characters, so this removes every leading character drawn from the set
containing backslash, `u`, `r` and `l`. -/
def pyLstripUrl (s : String) : String :=
  ⟨s.data.dropWhile (fun c => c = '\\' || c = 'u' || c = 'r' || c = 'l')⟩

/-- The whole normalisation applied to each bibtex field value present in the
entry (lines 106-108): translate, then lstrip. -/
def formatField (v : String) : String :=
  pyLstripUrl (pyTranslate v)

/-- The author string of lines 97-101: for each author, space-join first,
middle, prelast and last name parts, join authors with a trailing comma-space
separator, then drop the final two characters (Python `authors[:-2]`). -/
def joinAuthors (authors : List AuthorName) : String :=
  (String.join (authors.map (fun p =>
    " ".intercalate (p.firstNames ++ p.middleNames ++ p.prelastNames ++ p.lastNames)
      ++ ", "))).dropRight 2

/-- Modelled from the spec: `bibtex` holds "the single-entry serialized
original record" produced by the external pybtex serializer
(`BibliographyData({ID: entry}).to_string('bibtex')`, line 95).  No claim
inspects its contents, only its presence; it is modelled as a simple
serialization of key and raw fields. -/
def serializeBibtex (e : RawEntry) : String :=
  "@entry" ++ e.key ++ String.join (e.fields.map (fun f => f.1 ++ "=" ++ f.2))

/-- One pass of the per-entry loop body, lines 94-110: build the formatted
entry for one raw record. -/
def formatEntry (e : RawEntry) : FormattedEntry where
  ID := e.key
  bibtex := serializeBibtex e
  author :=
    match e.fields.lookup "author" with
    | some v => formatField v
    | none => joinAuthors e.authors
  title := (e.fields.lookup "title").map formatField
  year := (e.fields.lookup "year").map formatField
  note := (e.fields.lookup "note").map formatField
  acronyms := ",".intercalate (acronyms_from_ID e.key)
  ignore := false

/-! ### Index creation, pass 1 (src/cbfind.py lines 89-114): build the
formatted-entry mapping and the preprint title-to-note mapping -/

/-- Python's `str.startswith`, restated structurally on the character
lists so that it evaluates by kernel reduction. -/
def strStartsWith (s pre : String) : Bool :=
  pre.data.isPrefixOf s.data

/-- The failure modes of `create_index`: the uncaught `KeyError` of line 113
(an `EPRINT` entry with a title but no note), and a parse failure of the
external bibliography reader (spec section 7 ParseError). -/
inductive CbError where
  | keyErrorNote : CbError
  | parseError : CbError
  deriving DecidableEq, Repr

/-- Pass 1 (lines 93-114): for each entry in order, build its formatted
entry, and for every `EPRINT`-prefixed entry that has a title record
`(formatted title, (formatted note, key))` in the `eprint_urls` mapping.
Reading the note of such an entry without one raises `KeyError` (line 113).
The mapping is returned with later entries first, so that a lookup finds the
value written last, as in a Python dict overwritten in loop order. -/
def pass1 : List RawEntry → Except CbError (List (String × FormattedEntry) × List (String × String × String))
  | [] => Except.ok ([], [])
  | e :: rest =>
    let fe := formatEntry e
    let urlEntry : Except CbError (List (String × String × String)) :=
      if strStartsWith e.key "EPRINT" then
        match e.fields.lookup "title" with
        | some _ =>
          match fe.note with
          | some url => Except.ok [(fe.title.getD "", url, e.key)]
          | none => Except.error CbError.keyErrorNote
        | none => Except.ok []
      else Except.ok []
    do
      let u ← urlEntry
      let (fes, urls) ← pass1 rest
      Except.ok ((e.key, fe) :: fes, urls ++ u)

/-! ### Index creation, pass 2 (src/cbfind.py lines 116-127): merge preprint
notes into published entries, mark merged preprints ignored, and emit every
entry not marked ignored, in loop order and reading the live mapping. -/

/-- Overwrite the note of the entry stored under key `k`
(the mutation `entry['note'] = ...` of line 121 seen through the dict). -/
def setNote (m : List (String × FormattedEntry)) (k url : String) :
    List (String × FormattedEntry) :=
  m.map (fun p => if p.1 = k then (p.1, { p.2 with note := some url }) else p)

/-- Mark the entry stored under key `k` as ignored
(`formatted_entries[eprint_ID]['ignore'] = True`, line 124). -/
def setIgnore (m : List (String × FormattedEntry)) (k : String) :
    List (String × FormattedEntry) :=
  m.map (fun p => if p.1 = k then (p.1, { p.2 with ignore := true }) else p)

/-- Pass 2 (lines 116-126).  The loop walks the keys in insertion order; at
each step it reads the current value of the entry from the mapping (mutations
from earlier steps are visible), merges a preprint note into a non-preprint
entry with a matching title while marking that preprint ignored, and then
emits the entry unless its ignore mark is set at this moment. -/
def pass2 : List String → List (String × FormattedEntry) →
    List (String × String × String) → List FormattedEntry
  | [], _, _ => []
  | k :: ks, m, urls =>
    match m.lookup k with
    | none => pass2 ks m urls
    | some e =>
      let merged : Option (String × String) :=
        if strStartsWith k "EPRINT" then none
        else
          match e.title with
          | none => none
          | some t => urls.lookup t
      match merged with
      | some (url, eid) =>
        let e2 := { e with note := some url }
        let m2 := setIgnore (setNote m k url) eid
        (if e2.ignore then [] else [e2]) ++ pass2 ks m2 urls
      | none =>
        (if e.ignore then [] else [e]) ++ pass2 ks m urls

/-- The document-production core of `create_index` (lines 89-127): both
passes composed; returns the formatted entries that are added to the index
by `writer.add_document`, in order. -/
def createDocs (entries : List RawEntry) : Except CbError (List FormattedEntry) := do
  let (fes, urls) ← pass1 entries
  Except.ok (pass2 (fes.map Prod.fst) fes urls)

/-! ### Claim C4: field normalisation -/

/-- Membership in the deletion set of the `translate` table: the two brace
characters mapped to None on line 108. -/
def isBrace (c : Char) : Bool := c = '{' || c = '}'

/-- The newline-to-space substitution of the `translate` table. -/
def subNewline (c : Char) : Char := if c = '\n' then ' ' else c

/-- A restatement of `pyTranslate` at the character-list level. -/
def pyTranslateL : List Char → List Char :=
  List.foldr (fun c acc =>
    if c = '\n' then ' ' :: acc
    else if isBrace c then acc
    else c :: acc) []

theorem pyTranslate_eq_L (s : String) : (pyTranslate s).data = pyTranslateL s.data := rfl

theorem translateL_as_pipeline : ∀ l : List Char,
    pyTranslateL l = (l.map subNewline).filter (fun c => !isBrace c)
  | [] => rfl
  | c :: t => by
    have ih := translateL_as_pipeline t
    simp only [pyTranslateL, List.foldr_cons, List.map_cons, List.filter_cons] at ih ⊢
    by_cases h1 : c = '\n'
    · subst h1
      rw [if_pos rfl]
      have hs : subNewline '\n' = ' ' := rfl
      have hb : (!isBrace ' ') = true := rfl
      rw [hs, hb, if_pos rfl, ih]
    · by_cases h2 : isBrace c = true
      · have hs : subNewline c = c := if_neg h1
        have hb : (!isBrace c) = false := by rw [h2]; rfl
        rw [if_neg h1, if_pos h2, hs, hb, ih]
        simp
      · simp only [Bool.not_eq_true] at h2
        have hs : subNewline c = c := if_neg h1
        have hb : (!isBrace c) = true := by rw [h2]; rfl
        rw [if_neg h1, if_neg (by simp [h2]), hs, hb, if_pos rfl, ih]

theorem formatField_as_pipeline (s : String) :
    formatField s = pyLstripUrl ⟨(s.data.map subNewline).filter (fun c => !isBrace c)⟩ := by
  simp only [formatField]
  have h : pyTranslate s = ⟨(s.data.map subNewline).filter (fun c => !isBrace c)⟩ := by
    cases hp : pyTranslate s with
    | mk d =>
      have hd : d = (pyTranslate s).data := by rw [hp]
      rw [hd, pyTranslate_eq_L, translateL_as_pipeline]
  rw [h]

/-- Claim C4 counterexample: the claim's own example title is stored with a
double space (the newline becomes a space next to the pre-existing one), and
the leading strip is applied to the title field too, where it removes
leading characters from the set containing backslash, u, r and l rather
than a literal url marker only from notes. -/
theorem C4_counterexample :
    (formatEntry ⟨"K1", [], [("title", "{Foo} Bar\n Baz")]⟩).title = some "Foo Bar  Baz" ∧
    some "Foo Bar  Baz" ≠ some "Foo Bar Baz" ∧
    (formatEntry ⟨"K2", [], [("title", "run-time")]⟩).title = some "n-time" :=
  ⟨by decide, by decide, by decide⟩

/-- Claim C4 amended: for each of the fields title, author, year, note
present in a RawEntry, normalisation replaces each newline character by one
space and deletes every literal brace, and then — for every one of these
fields, not only note — strips every leading character drawn from the set
containing backslash, u, r and l (Python `lstrip('\\url')` takes a character
set); the claim's example title is therefore stored with two spaces between
Bar and Baz. -/
theorem C4_amended :
    (∀ s : String,
      formatField s = pyLstripUrl ⟨(s.data.map subNewline).filter (fun c => !isBrace c)⟩) ∧
    (∀ e : RawEntry,
      (formatEntry e).title = (e.fields.lookup "title").map formatField ∧
      (formatEntry e).year = (e.fields.lookup "year").map formatField ∧
      (formatEntry e).note = (e.fields.lookup "note").map formatField) ∧
    formatField "{Foo} Bar\n Baz" = "Foo Bar  Baz" :=
  ⟨formatField_as_pipeline, fun _ => ⟨rfl, rfl, rfl⟩, by decide⟩

/-! ### Claim C5: absent fields -/

/-- Claim C5 counterexample: an entry with no authors and a key yielding no
acronyms stores `author` and `acronyms` as empty strings; they are not
omitted from the document. -/
theorem C5_counterexample :
    (⟨"NoDigitsHere", [], [("title", "T")]⟩ : RawEntry).authors = [] ∧
    acronyms_from_ID "NoDigitsHere" = [] ∧
    (formatEntry ⟨"NoDigitsHere", [], [("title", "T")]⟩).author = "" ∧
    (formatEntry ⟨"NoDigitsHere", [], [("title", "T")]⟩).acronyms = "" :=
  ⟨rfl, by decide, by decide, by decide⟩

/-- Claim C5 amended: the fields title, year and note are omitted from the
Document exactly when absent from the RawEntry, but author and acronyms are
always assigned: an entry with no authors (and no author field) stores
author as the empty string, and a key yielding no acronyms stores acronyms
as the empty string. -/
theorem C5_amended (e : RawEntry) :
    ((formatEntry e).title = none ↔ e.fields.lookup "title" = none) ∧
    ((formatEntry e).year = none ↔ e.fields.lookup "year" = none) ∧
    ((formatEntry e).note = none ↔ e.fields.lookup "note" = none) ∧
    (e.authors = [] → e.fields.lookup "author" = none → (formatEntry e).author = "") ∧
    (acronyms_from_ID e.key = [] → (formatEntry e).acronyms = "") := by
  refine ⟨?_, ?_, ?_, ?_, ?_⟩
  · cases h : e.fields.lookup "title" <;> simp [formatEntry, h]
  · cases h : e.fields.lookup "year" <;> simp [formatEntry, h]
  · cases h : e.fields.lookup "note" <;> simp [formatEntry, h]
  · intro ha hf
    simp only [formatEntry, hf, ha, joinAuthors, List.map_nil]
    decide
  · intro hacr
    simp only [formatEntry, hacr]
    decide

/-- Witness for the amended C5 at a concrete entry with no authors and a key
that yields no acronyms. -/
theorem C5_amended_witness :
    (⟨"NoDigitsHere", [], []⟩ : RawEntry).authors = [] ∧
    (⟨"NoDigitsHere", [], []⟩ : RawEntry).fields.lookup "author" = none ∧
    acronyms_from_ID "NoDigitsHere" = [] ∧
    (formatEntry ⟨"NoDigitsHere", [], []⟩).author = "" ∧
    (formatEntry ⟨"NoDigitsHere", [], []⟩).acronyms = "" :=
  ⟨rfl, rfl, by decide,
    (C5_amended ⟨"NoDigitsHere", [], []⟩).2.2.2.1 rfl rfl,
    (C5_amended ⟨"NoDigitsHere", [], []⟩).2.2.2.2 (by decide)⟩

/-! ### Claim C10: the KeyError on preprints without a note -/

theorem pass1_cons_of_tail_error (e : RawEntry) (rest : List RawEntry)
    (h : pass1 rest = Except.error CbError.keyErrorNote) :
    pass1 (e :: rest) = Except.error CbError.keyErrorNote := by
  simp only [pass1]
  by_cases hK : strStartsWith e.key "EPRINT" = true
  · cases hT : e.fields.lookup "title" with
    | none =>
      simp only [hK, hT, h]
      rfl
    | some t =>
      cases hN : (formatEntry e).note with
      | none =>
        simp only [hK, hT, hN]
        rfl
      | some u =>
        simp only [hK, hT, hN, h]
        rfl
  · simp only [Bool.not_eq_true] at hK
    simp only [hK, h]
    rfl

theorem pass1_error_of_bad_entry : ∀ (entries : List RawEntry) (e : RawEntry),
    e ∈ entries → strStartsWith e.key "EPRINT" = true →
    (e.fields.lookup "title").isSome = true → e.fields.lookup "note" = none →
    pass1 entries = Except.error CbError.keyErrorNote
  | [], e, hmem, _, _, _ => absurd hmem (List.not_mem_nil e)
  | e0 :: rest, e, hmem, hk, ht, hn => by
    rcases List.mem_cons.mp hmem with he | htail
    · subst he
      obtain ⟨t, hT⟩ := Option.isSome_iff_exists.mp ht
      have hN : (formatEntry e).note = none := by
        simp [formatEntry, hn]
      simp only [pass1]
      simp only [hk, hT, hN]
      rfl
    · exact pass1_cons_of_tail_error e0 rest
        (pass1_error_of_bad_entry rest e htail hk ht hn)

/-- Claim C10: for every preprint-prefixed RawEntry that has a title field
but no note field, index creation fails with the uncaught KeyError raised
while building the title-to-note preprint mapping (line 113), so the whole
rebuild aborts with that error. -/
theorem C10_keyerror_on_noteless_preprint (entries : List RawEntry) (e : RawEntry)
    (hmem : e ∈ entries) (hk : strStartsWith e.key "EPRINT" = true)
    (ht : (e.fields.lookup "title").isSome = true)
    (hn : e.fields.lookup "note" = none) :
    createDocs entries = Except.error CbError.keyErrorNote := by
  simp only [createDocs, pass1_error_of_bad_entry entries e hmem hk ht hn]
  rfl

/-- Witness for C10: a single preprint entry with a title and no note makes
index creation abort with the KeyError. -/
theorem C10_keyerror_witness :
    (⟨"EPRINT:Bad", [], [("title", "T")]⟩ : RawEntry) ∈
      [(⟨"EPRINT:Bad", [], [("title", "T")]⟩ : RawEntry)] ∧
    strStartsWith "EPRINT:Bad" "EPRINT" = true ∧
    ((⟨"EPRINT:Bad", [], [("title", "T")]⟩ : RawEntry).fields.lookup "title").isSome = true ∧
    (⟨"EPRINT:Bad", [], [("title", "T")]⟩ : RawEntry).fields.lookup "note" = none ∧
    createDocs [⟨"EPRINT:Bad", [], [("title", "T")]⟩] = Except.error CbError.keyErrorNote :=
  ⟨List.mem_singleton.mpr rfl, by decide, by decide, by decide,
    C10_keyerror_on_noteless_preprint _ _ (List.mem_singleton.mpr rfl)
      (by decide) (by decide) (by decide)⟩

/-! ### Claims C2 and C7: the duplicate merger -/

/-- Claim C2 counterexample: when the preprint entry precedes the published
entry in the input order, the preprint document is emitted before its ignore
mark is set, so a document with id EPRINT:Foo does appear in the index and
two documents carry title X. -/
theorem C2_counterexample :
    (createDocs [⟨"EPRINT:Foo", [], [("title", "X"), ("note", "eprint.org/1")]⟩,
        ⟨"C:Foo", [], [("title", "X")]⟩]).map (fun docs => docs.map (fun d => d.ID)) =
      Except.ok ["EPRINT:Foo", "C:Foo"] ∧
    (createDocs [⟨"EPRINT:Foo", [], [("title", "X"), ("note", "eprint.org/1")]⟩,
        ⟨"C:Foo", [], [("title", "X")]⟩]).map (fun docs => docs.map (fun d => d.title)) =
      Except.ok [some "X", some "X"] :=
  ⟨rfl, rfl⟩

/-- Claim C2 amended: the merge behaves as claimed when the published entry
precedes the preprint entry in the entry order: indexing then yields exactly
one document, whose id is C:Foo, whose note is the preprint's stored note,
and no EPRINT:Foo document survives.  (When the preprint comes first it has
already been emitted before its ignore mark is set, see the
counterexample.) -/
theorem C2_amended (n : String) (au1 au2 : List AuthorName) :
    createDocs [⟨"C:Foo", au1, [("title", "X")]⟩,
        ⟨"EPRINT:Foo", au2, [("title", "X"), ("note", n)]⟩] =
      Except.ok [{ formatEntry ⟨"C:Foo", au1, [("title", "X")]⟩ with
        note := some (formatField n) }] ∧
    ({ formatEntry ⟨"C:Foo", au1, [("title", "X")]⟩ with
        note := some (formatField n) } : FormattedEntry).ID = "C:Foo" ∧
    ({ formatEntry ⟨"C:Foo", au1, [("title", "X")]⟩ with
        note := some (formatField n) } : FormattedEntry).title = some "X" :=
  ⟨rfl, rfl, rfl⟩

/-- Claim C7 counterexample: with two preprints sharing title X and the
published entry first in entry order, the later preprint (the one whose note
wins) is suppressed, so the two preprints do not both appear in the output. -/
theorem C7_counterexample :
    (createDocs [⟨"C:Foo", [], [("title", "X")]⟩,
        ⟨"EPRINT:Foo1", [], [("title", "X"), ("note", "eprint.org/1")]⟩,
        ⟨"EPRINT:Foo2", [], [("title", "X"), ("note", "eprint.org/2")]⟩]).map
      (fun docs => docs.map (fun d => (d.ID, d.note))) =
      Except.ok [("C:Foo", some "eprint.org/2"), ("EPRINT:Foo1", some "eprint.org/1")] :=
  rfl

/-- Claim C7 amended: only the preprint encountered last in the mapping
contributes its note to the published entry; the earlier preprint always
remains as a separate unmerged document; the contributing preprint remains
in the output exactly when it precedes the published entry in the entry
order (it is then emitted before its ignore mark is set), and is suppressed
when the published entry comes first. -/
theorem C7_amended (n1 n2 : String) :
    createDocs [⟨"EPRINT:Foo1", [], [("title", "X"), ("note", n1)]⟩,
        ⟨"EPRINT:Foo2", [], [("title", "X"), ("note", n2)]⟩,
        ⟨"C:Foo", [], [("title", "X")]⟩] =
      Except.ok [formatEntry ⟨"EPRINT:Foo1", [], [("title", "X"), ("note", n1)]⟩,
        formatEntry ⟨"EPRINT:Foo2", [], [("title", "X"), ("note", n2)]⟩,
        { formatEntry ⟨"C:Foo", [], [("title", "X")]⟩ with note := some (formatField n2) }] ∧
    createDocs [⟨"C:Foo", [], [("title", "X")]⟩,
        ⟨"EPRINT:Foo1", [], [("title", "X"), ("note", n1)]⟩,
        ⟨"EPRINT:Foo2", [], [("title", "X"), ("note", n2)]⟩] =
      Except.ok [{ formatEntry ⟨"C:Foo", [], [("title", "X")]⟩ with
          note := some (formatField n2) },
        formatEntry ⟨"EPRINT:Foo1", [], [("title", "X"), ("note", n1)]⟩] :=
  ⟨rfl, rfl⟩

/-! ### The query engine (src/cbfind.py lines 168-172 and spec sections
4.5 and 6).  The whoosh engine itself is an external collaborator; its
search contract is modelled from the spec: matching documents are ranked by
descending year and truncated to the requested limit
(`searcher.search(q, limit=searchlimit, sortedby='year', reverse=True)`). -/

/-- `SEARCHABLE_FIELDS` (src/cbfind.py line 61). -/
def SEARCHABLE_FIELDS : List String := ["title", "author", "year", "acronyms"]

/-- Decimal number parsing, restated structurally on the character list so
that it evaluates by kernel reduction. -/
def strToNat? (s : String) : Option Nat :=
  if s.data ≠ [] ∧ s.data.all Char.isDigit then
    some (s.data.foldl (fun acc c => acc * 10 + (c.toNat - 48)) 0)
  else none

/-- The numeric sort key of a document: its year field read as a number
(the whoosh NUMERIC field of the schema), 0 when absent or unreadable. -/
def yearKey (d : FormattedEntry) : Nat :=
  (d.year.bind strToNat?).getD 0

/-- The descending-year ranking relation used by the search call. -/
def byYearDesc (a b : FormattedEntry) : Prop := yearKey b ≤ yearKey a

instance : DecidableRel byYearDesc := fun a b => Nat.decLe (yearKey b) (yearKey a)

instance : IsTotal FormattedEntry byYearDesc :=
  ⟨fun a b => (Nat.le_total (yearKey b) (yearKey a)).symm.symm.imp id id⟩

instance : IsTrans FormattedEntry byYearDesc :=
  ⟨fun _ _ _ hab hbc => Nat.le_trans hbc hab⟩

/-- Modelled from the spec: the external index search
(`index.search(query, limit, sort-key, descending)` of section 6, called on
line 172 with `sortedby='year', reverse=True, limit=searchlimit`): the
matching documents, stably sorted by descending year, truncated to the
requested limit. -/
def searchIndex (docs : List FormattedEntry) (pred : FormattedEntry → Bool)
    (limit : Nat) : List FormattedEntry :=
  (List.insertionSort byYearDesc (docs.filter pred)).take limit

/-- A document holding only a key and a year, used for the ranking
examples. -/
def docOfYear (k y : String) : FormattedEntry := formatEntry ⟨k, [], [("year", y)]⟩

/-- Claim C3: search results are ordered by descending year and truncated to
the requested limit; three matching documents with years 2020, 2015, 2023
come back as [2023, 2020, 2015], and a limit of 2 against 5 matching
documents returns exactly the 2 highest-ranked.  (The tie-break by the
engine's intrinsic relevance score lives inside the external engine and is
not modelled; the examples use distinct years.) -/
theorem C3_ranking_and_limit :
    (∀ (docs : List FormattedEntry) (pred : FormattedEntry → Bool) (limit : Nat),
      List.Pairwise byYearDesc (searchIndex docs pred limit) ∧
      (searchIndex docs pred limit).length = min limit (docs.filter pred).length ∧
      (∀ d ∈ searchIndex docs pred limit, pred d = true)) ∧
    searchIndex [docOfYear "A" "2020", docOfYear "B" "2015", docOfYear "C" "2023"]
        (fun _ => true) 10 =
      [docOfYear "C" "2023", docOfYear "A" "2020", docOfYear "B" "2015"] ∧
    searchIndex [docOfYear "A" "2021", docOfYear "B" "2022", docOfYear "C" "2023",
        docOfYear "D" "2024", docOfYear "E" "2025"] (fun _ => true) 2 =
      [docOfYear "E" "2025", docOfYear "D" "2024"] := by
  refine ⟨fun docs pred limit => ⟨?_, ?_, ?_⟩, by decide, by decide⟩
  · exact (List.sorted_insertionSort byYearDesc _).sublist (List.take_sublist _ _)
  · rw [searchIndex, List.length_take,
      (List.perm_insertionSort byYearDesc (docs.filter pred)).length_eq]
  · intro d hd
    have hmem : d ∈ List.insertionSort byYearDesc (docs.filter pred) :=
      List.Sublist.mem hd (List.take_sublist _ _)
    have hfil : d ∈ docs.filter pred :=
      ((List.perm_insertionSort byYearDesc (docs.filter pred)).mem_iff).mp hmem
    exact (List.mem_filter.mp hfil).2

/-! ### Query parsing and term matching (spec section 4.5).  Modelled from
the spec: the query string is parsed against the fixed multi-field scope
with field-scoped terms of the form field:term; a term scoped to a field
outside the index matches nothing; bare terms are matched against every
searchable field (implicit OR). -/

/-- Lower-casing of a term or stored token, character by character. -/
def lowerStr (s : String) : String := ⟨s.data.map Char.toLower⟩

/-- Splitting a character list on a separator character (used for the
comma-separated acronyms KEYWORD field and for the field:term form). -/
def splitChar (sep : Char) : List Char → List (List Char)
  | [] => [[]]
  | c :: t =>
    if c = sep then [] :: splitChar sep t
    else
      match splitChar sep t with
      | [] => [[c]]
      | h :: r => (c :: h) :: r

/-- The maximal alphanumeric runs of a character list: the tokens produced
by the standard full-text analyzer for the TEXT fields title and author. -/
def alnumRuns : List Char → List (List Char)
  | [] => []
  | c :: t =>
    if c.isAlphanum then
      match alnumRuns t, t with
      | h :: rs, c2 :: _ =>
        if c2.isAlphanum then (c :: h) :: rs else [c] :: h :: rs
      | _, _ => [[c]]
    else alnumRuns t

/-- Modelled from the spec: whether one query term matches one named field
of a document.  TEXT fields match when the lower-cased term is one of their
alphanumeric tokens; the NUMERIC year field matches on numeric equality;
the KEYWORD acronyms field matches a lower-cased comma-separated token. -/
def matchesField (d : FormattedEntry) (f term : String) : Bool :=
  if f = "title" then
    match d.title with
    | none => false
    | some t => ((alnumRuns t.data).map (fun w => lowerStr ⟨w⟩)).contains (lowerStr term)
  else if f = "author" then
    ((alnumRuns d.author.data).map (fun w => lowerStr ⟨w⟩)).contains (lowerStr term)
  else if f = "year" then
    match d.year.bind strToNat?, strToNat? term with
    | some a, some b => a == b
    | _, _ => false
  else if f = "acronyms" then
    ((splitChar ',' d.acronyms.data).map (fun w => lowerStr ⟨w⟩)).contains (lowerStr term)
  else false

/-- The field:term split of a query term: the part before the first colon
names the field, the rest is the term. -/
def splitFirstColon (s : String) : Option (String × String) :=
  let pre := s.data.takeWhile notColon
  if pre.length = s.data.length then none
  else some (⟨pre⟩, ⟨s.data.drop (pre.length + 1)⟩)

/-- Modelled from the spec: whether a single-term query string matches a
document.  A field-scoped term is matched only against its named field, and
matches nothing when that field is not in the search scope; a bare term is
matched against every field of the scope (implicit OR). -/
def matchesQuery (q : String) (d : FormattedEntry) : Bool :=
  match splitFirstColon q with
  | some (f, t) => if SEARCHABLE_FIELDS.contains f then matchesField d f t else false
  | none => SEARCHABLE_FIELDS.any (fun f => matchesField d f q)

/-- Claim C8 counterexample: indexing the single entry with citation key
C:Foo12 and then querying that exact key returns no result at all, because
the key parses as a term scoped to the unknown field C — the id field is
not in SEARCHABLE_FIELDS and the stored acronym token is Foo12, not the
key. -/
theorem C8_counterexample :
    createDocs [⟨"C:Foo12", [], [("title", "T")]⟩] =
      Except.ok [formatEntry ⟨"C:Foo12", [], [("title", "T")]⟩] ∧
    acronyms_from_ID "C:Foo12" = ["Foo12"] ∧
    searchIndex [formatEntry ⟨"C:Foo12", [], [("title", "T")]⟩]
      (matchesQuery "C:Foo12") 10 = [] :=
  ⟨rfl, by decide, by decide⟩

/-! ### Claim C8: the exact-key round trip -/

theorem lookup_self {β : Type} (k : String) (v : β) (rest : List (String × β)) :
    List.lookup k ((k, v) :: rest) = some v := by
  simp [List.lookup]

theorem formatEntry_ignore (e : RawEntry) : (formatEntry e).ignore = false := rfl

theorem formatEntry_acr (e : RawEntry) :
    (formatEntry e).acronyms = ",".intercalate (acronyms_from_ID e.key) := rfl

theorem intercalate_single (s x : String) : s.intercalate [x] = x := by
  cases x with
  | mk d => rfl

theorem splitChar_no_sep {sep : Char} : ∀ l : List Char, (∀ x ∈ l, x ≠ sep) →
    splitChar sep l = [l]
  | [], _ => rfl
  | c :: t, h => by
    have hc : ¬(c = sep) := h c (by simp)
    have ht := splitChar_no_sep t (fun x hx => h x (by simp [hx]))
    simp [splitChar, hc, ht]

theorem createDocs_eq (entries : List RawEntry) (fes : List (String × FormattedEntry))
    (urls : List (String × String × String)) (hp : pass1 entries = Except.ok (fes, urls)) :
    createDocs entries = Except.ok (pass2 (fes.map Prod.fst) fes urls) := by
  simp only [createDocs, hp]
  rfl

theorem pass2_single_eprint (e : RawEntry) (urls : List (String × String × String))
    (hK : strStartsWith e.key "EPRINT" = true) :
    pass2 [e.key] [(e.key, formatEntry e)] urls = [formatEntry e] := by
  simp [pass2, lookup_self, hK, formatEntry_ignore]

theorem pass2_single_nil_urls (e : RawEntry) :
    pass2 [e.key] [(e.key, formatEntry e)] [] = [formatEntry e] := by
  by_cases hK : strStartsWith e.key "EPRINT" = true
  · exact pass2_single_eprint e [] hK
  · simp only [Bool.not_eq_true] at hK
    cases hT : (formatEntry e).title with
    | none => simp [pass2, lookup_self, hK, hT, formatEntry_ignore]
    | some t => simp [pass2, lookup_self, hK, hT, formatEntry_ignore, List.lookup]

theorem createDocs_singleton (e : RawEntry) (docs : List FormattedEntry)
    (h : createDocs [e] = Except.ok docs) : docs = [formatEntry e] := by
  by_cases hK : strStartsWith e.key "EPRINT" = true
  · cases hT : e.fields.lookup "title" with
    | none =>
      have hp1 : pass1 [e] = Except.ok ([(e.key, formatEntry e)], []) := by
        simp only [pass1, hK, hT]
        rfl
      rw [createDocs_eq [e] _ _ hp1] at h
      simp only [List.map_cons, List.map_nil] at h
      rw [pass2_single_nil_urls] at h
      exact ((Except.ok.injEq _ _).mp h).symm
    | some t =>
      cases hN : (formatEntry e).note with
      | none =>
        have hperr : pass1 [e] = Except.error CbError.keyErrorNote := by
          simp only [pass1, hK, hT, hN]
          rfl
        have hce : createDocs [e] = Except.error CbError.keyErrorNote := by
          simp only [createDocs, hperr]
          rfl
        rw [hce] at h
        exact absurd h (by simp)
      | some u =>
        have hp1 : pass1 [e] = Except.ok ([(e.key, formatEntry e)],
            [((formatEntry e).title.getD "", u, e.key)]) := by
          simp only [pass1, hK, hT, hN]
          rfl
        rw [createDocs_eq [e] _ _ hp1] at h
        simp only [List.map_cons, List.map_nil] at h
        rw [pass2_single_eprint e _ hK] at h
        exact ((Except.ok.injEq _ _).mp h).symm
  · simp only [Bool.not_eq_true] at hK
    have hp1 : pass1 [e] = Except.ok ([(e.key, formatEntry e)], []) := by
      simp only [pass1, hK]
      rfl
    rw [createDocs_eq [e] _ _ hp1] at h
    simp only [List.map_cons, List.map_nil] at h
    rw [pass2_single_nil_urls] at h
    exact ((Except.ok.injEq _ _).mp h).symm

theorem matchesQuery_key_self (e : RawEntry) (hacr : acronyms_from_ID e.key = [e.key])
    (hnc : ':' ∉ e.key.data) (hcm : ',' ∉ e.key.data) :
    matchesQuery e.key (formatEntry e) = true := by
  have hsplit : splitFirstColon e.key = none := by
    have htw : e.key.data.takeWhile notColon = e.key.data := by
      refine takeWhile_all (List.all_eq_true.mpr fun x hx => ?_)
      have : ¬(x = ':') := fun he => hnc (he ▸ hx)
      simp [notColon, this]
    simp [splitFirstColon, htw]
  have hacro : matchesField (formatEntry e) "acronyms" e.key = true := by
    simp only [matchesField]
    rw [if_pos trivial]
    have hac : (formatEntry e).acronyms = e.key := by
      rw [formatEntry_acr, hacr, intercalate_single]
    rw [hac, splitChar_no_sep e.key.data (fun x hx he => hcm (by rw [← he]; exact hx))]
    simp [List.contains]
  rw [matchesQuery, hsplit]
  simp only [SEARCHABLE_FIELDS, List.any_cons, List.any_nil, hacro]
  simp

theorem searchIndex_singleton (d : FormattedEntry) (pred : FormattedEntry → Bool)
    (hm : pred d = true) (limit : Nat) (hl : 1 ≤ limit) :
    searchIndex [d] pred limit = [d] := by
  cases limit with
  | zero => omega
  | succ n =>
    simp only [searchIndex, List.filter, hm]
    simp [List.insertionSort, List.orderedInsert, List.take_succ_cons]

/-- Claim C8 amended: the round trip holds for a citation key without colon
or comma whose acronym derivation falls back to the key itself (fewer than
two initials with a year suffix, e.g. Groth16): indexing the single entry
and querying the exact key then returns exactly that document.  For any key
containing a colon the query parses as a term scoped to an unknown field and
matches nothing, since the id field is not among the searchable fields (see
the counterexample). -/
theorem C8_amended (e : RawEntry) (docs : List FormattedEntry) (limit : Nat)
    (hacr : acronyms_from_ID e.key = [e.key])
    (hnc : ':' ∉ e.key.data) (hcm : ',' ∉ e.key.data)
    (hok : createDocs [e] = Except.ok docs) (hl : 1 ≤ limit) :
    docs = [formatEntry e] ∧
    searchIndex docs (matchesQuery e.key) limit = [formatEntry e] ∧
    (formatEntry e).ID = e.key := by
  have hd := createDocs_singleton e docs hok
  subst hd
  exact ⟨rfl,
    searchIndex_singleton _ _ (matchesQuery_key_self e hacr hnc hcm) limit hl, rfl⟩

/-- Witness for the amended C8 round trip at the key Groth16. -/
theorem C8_amended_witness :
    acronyms_from_ID "Groth16" = ["Groth16"] ∧
    ':' ∉ "Groth16".data ∧
    ',' ∉ "Groth16".data ∧
    createDocs [⟨"Groth16", [], [("title", "On the Size"), ("year", "2016")]⟩] =
      Except.ok [formatEntry ⟨"Groth16", [], [("title", "On the Size"), ("year", "2016")]⟩] ∧
    1 ≤ 10 ∧
    searchIndex [formatEntry ⟨"Groth16", [], [("title", "On the Size"), ("year", "2016")]⟩]
      (matchesQuery "Groth16") 10 =
      [formatEntry ⟨"Groth16", [], [("title", "On the Size"), ("year", "2016")]⟩] :=
  ⟨by decide, by decide, by decide, rfl, by decide,
    (C8_amended ⟨"Groth16", [], [("title", "On the Size"), ("year", "2016")]⟩
      [formatEntry ⟨"Groth16", [], [("title", "On the Size"), ("year", "2016")]⟩] 10
      (by decide) (by decide) (by decide) rfl (by decide)).2.1⟩

/-! ### The result renderer (src/cbfind.py lines 182-198).  `hit.fields()`
is the stored-field dict of the external engine; whoosh stores the fields of
a document sorted by field name, so the dict holds, in this order: ID,
acronyms, author, bibtex, and then whichever of note, title, year are
present.  The comma logic of line 194 compares each rendered field against
the last key of that dict — including the skipped keys ID and bibtex.
Highlighting is rendered here in its no-match, non-interactive form (the
highlight pipeline returns the stored text unchanged when nothing matches
and emphasis degrades to plain text when not on a terminal); line wrapping
is not modelled. -/

/-- The stored-field dict of one document, in whoosh's sorted-name order. -/
def storedFields (d : FormattedEntry) : List (String × String) :=
  [("ID", d.ID), ("acronyms", d.acronyms), ("author", d.author), ("bibtex", d.bibtex)]
    ++ (match d.note with | some v => [("note", v)] | none => [])
    ++ (match d.title with | some v => [("title", v)] | none => [])
    ++ (match d.year with | some v => [("year", v)] | none => [])

/-- `next(reversed(hit.fields().keys()))` of line 194: the last stored field
name. -/
def lastFieldName (d : FormattedEntry) : String :=
  ((storedFields d).map Prod.fst).getLastD ""

/-- The displayed stored fields: every stored field except ID and bibtex
(line 185). -/
def displayedFields (d : FormattedEntry) : List (String × String) :=
  (storedFields d).filter (fun p => !(p.1 = "ID" || p.1 = "bibtex"))

/-- The rendered text line of each displayed field (lines 184-198, without
wrapping and with no-match highlighting): the field text, comma-terminated
unless the field name equals the last stored field name. -/
def renderedLines (d : FormattedEntry) : List String :=
  (storedFields d).filterMap (fun p =>
    if p.1 = "ID" || p.1 = "bibtex" then none
    else some (p.2 ++ (if p.1 = lastFieldName d then "" else ",")))

/-- Claim C9 counterexample: for a document with none of note, title, year,
the last stored field is bibtex, which is skipped in display, so every
displayed field — including the one rendered last — ends with a comma. -/
theorem C9_counterexample :
    renderedLines (formatEntry ⟨"STIX", [], []⟩) = [",", ","] ∧
    (renderedLines (formatEntry ⟨"STIX", [], []⟩)).getLastD "" = "," :=
  ⟨by decide, by decide⟩

/-- Claim C9 amended: each displayed field is comma-terminated unless its
name equals the last name of the full stored-field list; that last name is
the skipped field bibtex exactly when the document has none of note, title
and year, in which case every displayed field, including the last rendered
one, is comma-terminated. -/
theorem C9_amended (d : FormattedEntry) :
    renderedLines d = (displayedFields d).map
      (fun p => p.2 ++ (if p.1 = lastFieldName d then "" else ",")) ∧
    (lastFieldName d = "bibtex" ↔ (d.note = none ∧ d.title = none ∧ d.year = none)) ∧
    (∀ p ∈ displayedFields d, p.1 ≠ "ID" ∧ p.1 ≠ "bibtex") := by
  refine ⟨?_, ?_, ?_⟩
  · cases hn : d.note <;> cases ht : d.title <;> cases hy : d.year <;>
      simp [renderedLines, displayedFields, storedFields, hn, ht, hy,
        List.filterMap, List.filter]
  · cases hn : d.note <;> cases ht : d.title <;> cases hy : d.year <;>
      simp [lastFieldName, storedFields, hn, ht, hy]
  · intro p hp
    have := (List.mem_filter.mp hp).2
    simp only [Bool.not_eq_true', Bool.or_eq_false_iff] at this
    constructor
    · intro he
      rw [he] at this
      simp at this
    · intro he
      rw [he] at this
      simp at this

/-! ### Claim C6: failure atomicity of index creation.  The persistent
store is the external collaborator of spec section 6; per its contract (and
spec section 4.4), `create(location, schema)` replaces any index already at
the location with a new empty one, `writer.add` buffers documents, and only
`writer.commit()` publishes them.  In the source, `index.create_in` runs on
line 77, before the bibliography is parsed on line 86 and before the
documents are built; `writer.commit()` runs last, on line 127. -/

/-- One run of `create_index` against a store location: `prior` is the
index previously at the location (`none` when there was none), `source` is
the outcome of the external bibliography parse.  Returns the index left
queryable at the location together with the outcome of the run. -/
def create_index_run (prior : Option (List FormattedEntry))
    (source : Except CbError (List RawEntry)) :
    Option (List FormattedEntry) × Except CbError (List FormattedEntry) :=
  -- line 77: index.create_in replaces whatever was at the location
  let store : Option (List FormattedEntry) := some []
  match source with
  | Except.error err => (store, Except.error err)
  | Except.ok entries =>
    match createDocs entries with
    | Except.error err => (store, Except.error err)
    | Except.ok docs => (some docs, Except.ok docs)

/-- Claim C6 counterexample: with a prior index in place, a run whose parse
fails leaves the location holding the fresh empty index created up front on
line 77 — the prior index does not remain intact. -/
theorem C6_counterexample :
    create_index_run (some [formatEntry ⟨"Old", [], []⟩]) (Except.error CbError.parseError) =
      (some [], Except.error CbError.parseError) ∧
    (some ([] : List FormattedEntry)) ≠ some [formatEntry ⟨"Old", [], []⟩] :=
  ⟨rfl, by decide⟩

/-- Claim C6 amended: index creation destroys the prior index at the very
start (line 77, before parsing); a run that fails at any point before the
final commit leaves exactly the fresh empty index queryable — never the
prior index and never a partially filled one — and a successful run leaves
exactly the committed documents. -/
theorem C6_amended (prior : Option (List FormattedEntry))
    (source : Except CbError (List RawEntry)) :
    (create_index_run prior source).1 =
      (match (create_index_run prior source).2 with
        | Except.error _ => some []
        | Except.ok docs => some docs) := by
  cases source with
  | error err => rfl
  | ok entries =>
    cases h : createDocs entries with
    | error err => simp [create_index_run, h]
    | ok docs => simp [create_index_run, h]
